import Mathlib

/-!
# Verification of the cap-admin variant-centric product configuration engine

This file gives a shallow embedding, in Lean 4, of the product
create/edit logic of the cap-admin repository:

* `src/pages/Products/ProductCreate.tsx` (the create-mode engine), and
* the two versions of `src/pages/Products/ProductEdit.tsx` (the
  edit-mode engine), referred to below as "edit v1" (the version using
  `ImageItem { file?, preview, url? }`) and "edit v2" (the version
  using `VariantImage { file?, preview, isNew? }` plus a separate
  `uploadedImageUrls` accumulator).

Strings are modelled as Lean `String` (a list of characters); the
JavaScript regular-expression pipeline of the slug deriver is modelled
character-by-character over `List Char` (ASCII-faithful: `\w` is
`[A-Za-z0-9_]`, `\s` is modelled by the four common ASCII whitespace
characters, and `toLowerCase` by the ASCII lower-casing map, matching
the effect of the JavaScript code on ASCII input).  JavaScript numbers
are modelled as `Int`, optional / possibly-`undefined` fields as
`Option`, and `File` objects as opaque tokens (`FileRef`).  Network
collaborators (the batched image upload and the product create/update
calls) are modelled by passing their outcomes as parameters: an upload
outcome is `Option (List String)` (`some urls` for a successful
response — with `res.data.urls ?? []` already applied — and `none` for
a request that fails).  React `setState` during one synchronous
submission is modelled by explicit state passing; object aliasing
visible to the submission handler (a helper mutating the same variant
object the loop reads) is translated into the equivalent explicit data
flow, noted at each definition.
-/

namespace CapAdmin

/-! ## Characters and the slug pipeline

`ProductCreate.tsx` lines 60–73 (and the corresponding effects of the
two ProductEdit versions) derive the slug by

```
name.toLowerCase()
    .replace(/\s+/g, '-')
    .replace(/[^\w\-]+/g, '')
    .replace(/\-\-+/g, '-')
    .replace(/^-+|-+$/g, '')
    .trim()
```

(edit v1 omits the final `.trim()`).  Each regex pass is modelled as a
recursive function on `List Char`.
-/

/-- ASCII model of the character class `\s` used by `replace(/\s+/g, '-')`
and of `String.prototype.trim`. -/
def jsIsSpace (c : Char) : Bool :=
  c = ' ' || c = '\t' || c = '\r' || c = '\n'

/-- The JavaScript (non-Unicode) character class `\w`, i.e. `[A-Za-z0-9_]`. -/
def isWordChar (c : Char) : Bool :=
  ('a' ≤ c && c ≤ 'z') || ('A' ≤ c && c ≤ 'Z') || ('0' ≤ c && c ≤ '9') || c = '_'

/-- Characters kept by `replace(/[^\w\-]+/g, '')`: word characters and `-`. -/
def keepChar (c : Char) : Bool :=
  isWordChar c || c = '-'

/-- ASCII model of `toLowerCase` applied to one character. -/
def lowerChar (c : Char) : Char :=
  if 'A' ≤ c ∧ c ≤ 'Z' then Char.ofNat (c.toNat + 32) else c

/-- `replace(/\s+/g, '-')`: each maximal run of whitespace becomes a single
hyphen.  The flag records whether the previous character was whitespace
(so further whitespace of the same run is skipped). -/
def collapseSpacesAux : Bool → List Char → List Char
  | _, [] => []
  | prevSpace, c :: rest =>
    if jsIsSpace c then
      if prevSpace then collapseSpacesAux true rest
      else '-' :: collapseSpacesAux true rest
    else c :: collapseSpacesAux false rest

def collapseSpaces (l : List Char) : List Char :=
  collapseSpacesAux false l

/-- `replace(/[^\w\-]+/g, '')`. -/
def filterWord (l : List Char) : List Char :=
  l.filter keepChar

/-- `replace(/\-\-+/g, '-')`: every maximal run of hyphens becomes a single
hyphen (runs of length one are untouched, which has the same effect).
The flag records whether the previous character was a hyphen. -/
def collapseHyphAux : Bool → List Char → List Char
  | _, [] => []
  | prevHyph, c :: rest =>
    if c = '-' then
      if prevHyph then collapseHyphAux true rest
      else '-' :: collapseHyphAux true rest
    else c :: collapseHyphAux false rest

def collapseHyph (l : List Char) : List Char :=
  collapseHyphAux false l

/-- Drop a trailing run of characters satisfying `p`. -/
def dropTrailing (p : Char → Bool) (l : List Char) : List Char :=
  ((l.reverse).dropWhile p).reverse

/-- `replace(/^-+|-+$/g, '')`: strip the leading and the trailing run of
hyphens. -/
def stripEdgeHyphens (l : List Char) : List Char :=
  dropTrailing (fun c => c = '-') (l.dropWhile (fun c => c = '-'))

/-- `String.prototype.trim` (ASCII model). -/
def trimWSList (l : List Char) : List Char :=
  dropTrailing jsIsSpace (l.dropWhile jsIsSpace)

/-- JavaScript `s.trim()`. -/
def jsTrim (s : String) : String :=
  String.mk (trimWSList s.data)

/-- The slug pipeline shared by all three components (before the optional
final `.trim()`). -/
def slugCore (l : List Char) : List Char :=
  stripEdgeHyphens (collapseHyph (filterWord (collapseSpaces (l.map lowerChar))))

/-- The generated slug of `ProductCreate.tsx` lines 62–68 and edit v2 lines
792–798 (pipeline followed by `.trim()`). -/
def slugCreate (s : String) : String :=
  String.mk (trimWSList (slugCore s.data))

/-- The generated slug of edit v1 lines 63–68 (same pipeline, no final
`.trim()`). -/
def slugV1 (s : String) : String :=
  String.mk (slugCore s.data)

/-- The create-mode slug effect (`ProductCreate.tsx` lines 60–73): on every
name change, the slug becomes the generated slug when the trimmed name is
non-empty, and the empty string otherwise. -/
def slugEffectCreate (name : String) : String :=
  if jsTrim name = "" then "" else slugCreate name

/-- The edit v1 slug effect (edit v1 lines 58–70): identical to the
create-mode effect — it recomputes on every name change and never consults
the current slug (the parameter is unused, mirroring the source). -/
def slugEffectEditV1 (name : String) (_currentSlug : String) : String :=
  if jsTrim name = "" then "" else slugV1 name

/-- The edit v2 slug effect (edit v2 lines 790–801): the slug is recomputed
only when the trimmed name is non-empty AND the current slug is empty
(`if (name.trim() && !slug)`); otherwise it is left unchanged. -/
def slugEffectEditV2 (name : String) (currentSlug : String) : String :=
  if jsTrim name ≠ "" ∧ currentSlug = "" then slugCreate name else currentSlug

/-! ### Character-level lemmas -/

theorem toNat_ofNat_valid (n : Nat) (h : n.isValidChar) : (Char.ofNat n).toNat = n := by
  unfold Char.ofNat
  rw [dif_pos h]
  unfold Char.ofNatAux Char.toNat
  simp [UInt32.toNat]

theorem lowerChar_not_upper (c : Char) : ¬('A' ≤ lowerChar c ∧ lowerChar c ≤ 'Z') := by
  unfold lowerChar
  by_cases h : 'A' ≤ c ∧ c ≤ 'Z'
  · rw [if_pos h]
    have h1 : (65 : Nat) ≤ c.toNat := h.1
    have hv : (c.toNat + 32).isValidChar := by
      have h2 : c.toNat ≤ (90 : Nat) := h.2
      left
      omega
    have ht := toNat_ofNat_valid _ hv
    intro hcon
    have hc2 : (Char.ofNat (c.toNat + 32)).toNat ≤ (90 : Nat) := hcon.2
    rw [ht] at hc2
    omega
  · rw [if_neg h]
    exact h

theorem lowerChar_idem (c : Char) : lowerChar (lowerChar c) = lowerChar c := by
  have h := lowerChar_not_upper c
  conv_lhs => rw [lowerChar]
  rw [if_neg h]

theorem keepChar_not_space {c : Char} (h : keepChar c = true) : jsIsSpace c = false := by
  rcases Bool.eq_false_or_eq_true (jsIsSpace c) with ht | hf
  · exfalso
    unfold jsIsSpace at ht
    simp only [Bool.or_eq_true, decide_eq_true_eq] at ht
    rcases ht with ((rfl | rfl) | rfl) | rfl <;> exact absurd h (by decide)
  · exact hf

/-! ### Lemmas on the whitespace-collapsing pass -/

theorem mem_collapseSpacesAux {c : Char} :
    ∀ (b : Bool) (l : List Char), c ∈ collapseSpacesAux b l →
      c = '-' ∨ (c ∈ l ∧ jsIsSpace c = false) := by
  intro b l
  induction l generalizing b with
  | nil => intro h; exact absurd h (by simp [collapseSpacesAux])
  | cons d rest ih =>
    intro h
    by_cases hd : jsIsSpace d
    · cases b with
      | true =>
        simp only [collapseSpacesAux, hd, if_true] at h
        rcases ih true h with h1 | ⟨h1, h2⟩
        · exact Or.inl h1
        · exact Or.inr ⟨List.mem_cons_of_mem _ h1, h2⟩
      | false =>
        simp only [collapseSpacesAux, hd, if_true] at h
        rcases List.mem_cons.mp h with rfl | h1
        · exact Or.inl rfl
        · rcases ih true h1 with h2 | ⟨h2, h3⟩
          · exact Or.inl h2
          · exact Or.inr ⟨List.mem_cons_of_mem _ h2, h3⟩
    · simp only [collapseSpacesAux, hd, if_false] at h
      rcases List.mem_cons.mp h with rfl | h1
      · exact Or.inr ⟨List.mem_cons_self _ _, by simpa using hd⟩
      · rcases ih false h1 with h2 | ⟨h2, h3⟩
        · exact Or.inl h2
        · exact Or.inr ⟨List.mem_cons_of_mem _ h2, h3⟩

theorem collapseSpacesAux_eq_self :
    ∀ (b : Bool) (l : List Char), (∀ c ∈ l, jsIsSpace c = false) →
      collapseSpacesAux b l = l := by
  intro b l
  induction l generalizing b with
  | nil => intro _; rfl
  | cons d rest ih =>
    intro h
    have hd : jsIsSpace d = false := h d (List.mem_cons_self _ _)
    simp only [collapseSpacesAux, hd, Bool.false_eq_true, if_false]
    rw [ih false (fun c hc => h c (List.mem_cons_of_mem _ hc))]

/-! ### Adjacent-hyphen bookkeeping -/

/-- `true` iff the list does not start with a hyphen. -/
def headNotHyph : List Char → Bool
  | [] => true
  | c :: _ => !(c == '-')

/-- `true` iff the list has no two adjacent hyphens. -/
def noAdjHyph : List Char → Bool
  | [] => true
  | [_] => true
  | a :: b :: rest => (!(a == '-' && b == '-')) && noAdjHyph (b :: rest)

theorem noAdjHyph_cons (a : Char) (l : List Char) :
    noAdjHyph (a :: l) = ((!(a == '-') || headNotHyph l) && noAdjHyph l) := by
  cases l with
  | nil => simp [noAdjHyph, headNotHyph]
  | cons b r => simp [noAdjHyph, headNotHyph, Bool.not_and]

theorem noAdjHyph_tail {a : Char} {l : List Char} (h : noAdjHyph (a :: l) = true) :
    noAdjHyph l = true := by
  rw [noAdjHyph_cons] at h
  exact ((Bool.and_eq_true _ _).mp h).2

theorem headNotHyph_append {xs ys : List Char} (h : headNotHyph (xs ++ ys) = true) :
    headNotHyph xs = true := by
  cases xs with
  | nil => rfl
  | cons c r => simpa [headNotHyph] using h

theorem noAdjHyph_append_left :
    ∀ {xs ys : List Char}, noAdjHyph (xs ++ ys) = true → noAdjHyph xs = true := by
  intro xs
  induction xs with
  | nil => intro ys _; rfl
  | cons a r ih =>
    intro ys h
    rw [List.cons_append, noAdjHyph_cons] at h
    rcases (Bool.and_eq_true _ _).mp h with ⟨h1, h2⟩
    rw [noAdjHyph_cons]
    refine (Bool.and_eq_true _ _).mpr ⟨?_, ih h2⟩
    rcases (Bool.or_eq_true _ _).mp h1 with h3 | h3
    · exact (Bool.or_eq_true _ _).mpr (Or.inl h3)
    · exact (Bool.or_eq_true _ _).mpr (Or.inr (headNotHyph_append h3))

/-! ### Lemmas on the hyphen-collapsing pass -/

theorem mem_collapseHyphAux {c : Char} :
    ∀ (b : Bool) (l : List Char), c ∈ collapseHyphAux b l → c ∈ l := by
  intro b l
  induction l generalizing b with
  | nil => intro h; exact absurd h (by simp [collapseHyphAux])
  | cons d rest ih =>
    intro h
    by_cases hd : d = '-'
    · subst hd
      cases b with
      | true =>
        simp only [collapseHyphAux, if_true, reduceIte] at h
        exact List.mem_cons_of_mem _ (ih true h)
      | false =>
        simp only [collapseHyphAux, reduceIte, Bool.false_eq_true, if_false] at h
        rcases List.mem_cons.mp h with rfl | h1
        · exact List.mem_cons_self _ _
        · exact List.mem_cons_of_mem _ (ih true h1)
    · simp only [collapseHyphAux, hd, if_false] at h
      rcases List.mem_cons.mp h with rfl | h1
      · exact List.mem_cons_self _ _
      · exact List.mem_cons_of_mem _ (ih false h1)


theorem collapseHyphAux_spec :
    ∀ (l : List Char), (∀ b, noAdjHyph (collapseHyphAux b l) = true)
      ∧ headNotHyph (collapseHyphAux true l) = true := by
  intro l
  induction l with
  | nil => exact ⟨fun b => rfl, rfl⟩
  | cons d rest ih =>
    by_cases hd : d = '-'
    · subst hd
      constructor
      · intro b
        cases b with
        | true =>
          simp only [collapseHyphAux, if_true, reduceIte]
          exact ih.1 true
        | false =>
          simp only [collapseHyphAux, reduceIte, Bool.false_eq_true, if_false]
          rw [noAdjHyph_cons]
          refine (Bool.and_eq_true _ _).mpr ⟨?_, ih.1 true⟩
          exact (Bool.or_eq_true _ _).mpr (Or.inr ih.2)
      · simp only [collapseHyphAux, if_true, reduceIte]
        exact ih.2
    · constructor
      · intro b
        simp only [collapseHyphAux, hd, if_false]
        rw [noAdjHyph_cons]
        refine (Bool.and_eq_true _ _).mpr ⟨?_, ih.1 false⟩
        refine (Bool.or_eq_true _ _).mpr (Or.inl ?_)
        simpa using hd
      · simp only [collapseHyphAux, hd, if_false, headNotHyph]
        simpa using hd

theorem collapseHyphAux_eq_self :
    ∀ (l : List Char) (b : Bool), noAdjHyph l = true →
      (b = true → headNotHyph l = true) → collapseHyphAux b l = l := by
  intro l
  induction l with
  | nil => intro b _ _; rfl
  | cons d rest ih =>
    intro b hadj hhead
    by_cases hd : d = '-'
    · subst hd
      cases b with
      | true =>
        exfalso
        have := hhead rfl
        simp [headNotHyph] at this
      | false =>
        simp only [collapseHyphAux, reduceIte, Bool.false_eq_true, if_false]
        rw [noAdjHyph_cons] at hadj
        rcases (Bool.and_eq_true _ _).mp hadj with ⟨h1, h2⟩
        have hh : headNotHyph rest = true := by
          rcases (Bool.or_eq_true _ _).mp h1 with h3 | h3
          · simp at h3
          · exact h3
        rw [ih true h2 (fun _ => hh)]
    · simp only [collapseHyphAux, hd, if_false]
      rw [noAdjHyph_cons] at hadj
      rcases (Bool.and_eq_true _ _).mp hadj with ⟨_, h2⟩
      rw [ih false h2 (by intro h; exact absurd h (by simp))]

/-! ### Lemmas on `dropWhile` / `dropTrailing` -/

theorem dropWhile_eq_self_of_all {p : Char → Bool} {l : List Char}
    (h : ∀ c ∈ l, p c = false) : l.dropWhile p = l := by
  cases l with
  | nil => rfl
  | cons c r =>
    rw [List.dropWhile_cons, h c (List.mem_cons_self _ _)]
    simp

theorem mem_dropWhile {p : Char → Bool} {c : Char} :
    ∀ {l : List Char}, c ∈ l.dropWhile p → c ∈ l := by
  intro l
  induction l with
  | nil => intro h; exact h
  | cons d rest ih =>
    intro h
    rw [List.dropWhile_cons] at h
    by_cases hd : p d = true
    · rw [if_pos hd] at h
      exact List.mem_cons_of_mem _ (ih h)
    · rw [if_neg hd] at h
      exact h

theorem noAdjHyph_dropWhile {p : Char → Bool} :
    ∀ {l : List Char}, noAdjHyph l = true → noAdjHyph (l.dropWhile p) = true := by
  intro l
  induction l with
  | nil => intro h; exact h
  | cons d rest ih =>
    intro h
    rw [List.dropWhile_cons]
    by_cases hd : p d = true
    · rw [if_pos hd]
      exact ih (noAdjHyph_tail h)
    · rw [if_neg hd]
      exact h

theorem headNotHyph_dropWhile_hyph :
    ∀ (l : List Char), headNotHyph (l.dropWhile (fun c => c = '-')) = true := by
  intro l
  induction l with
  | nil => rfl
  | cons d rest ih =>
    rw [List.dropWhile_cons]
    by_cases hd : d = '-'
    · rw [if_pos (by simpa using hd)]
      exact ih
    · rw [if_neg (by simpa using hd)]
      simpa [headNotHyph] using hd

theorem dropWhile_hyph_eq_self {l : List Char} (h : headNotHyph l = true) :
    l.dropWhile (fun c => c = '-') = l := by
  cases l with
  | nil => rfl
  | cons c r =>
    simp only [headNotHyph, Bool.not_eq_true'] at h
    rw [List.dropWhile_cons, if_neg (by simp_all)]

theorem dropTrailing_append (p : Char → Bool) (l : List Char) :
    dropTrailing p l ++ (l.reverse.takeWhile p).reverse = l := by
  unfold dropTrailing
  have h := List.takeWhile_append_dropWhile p l.reverse
  have h2 := congrArg List.reverse h
  rw [List.reverse_append, List.reverse_reverse] at h2
  exact h2

theorem mem_dropTrailing {p : Char → Bool} {c : Char} {l : List Char}
    (h : c ∈ dropTrailing p l) : c ∈ l := by
  unfold dropTrailing at h
  rw [List.mem_reverse] at h
  have := mem_dropWhile h
  rwa [List.mem_reverse] at this

theorem noAdjHyph_dropTrailing {p : Char → Bool} {l : List Char}
    (h : noAdjHyph l = true) : noAdjHyph (dropTrailing p l) = true := by
  have hdecomp := dropTrailing_append p l
  have : noAdjHyph (dropTrailing p l ++ (l.reverse.takeWhile p).reverse) = true := by
    rw [hdecomp]; exact h
  exact noAdjHyph_append_left this

theorem headNotHyph_dropTrailing {p : Char → Bool} {l : List Char}
    (h : headNotHyph l = true) : headNotHyph (dropTrailing p l) = true := by
  have hdecomp := dropTrailing_append p l
  have h2 : headNotHyph (dropTrailing p l ++ (l.reverse.takeWhile p).reverse) = true := by
    rw [hdecomp]; exact h
  exact headNotHyph_append h2

theorem lastNotHyph_dropTrailing_hyph (l : List Char) :
    headNotHyph (dropTrailing (fun c => c = '-') l).reverse = true := by
  unfold dropTrailing
  rw [List.reverse_reverse]
  exact headNotHyph_dropWhile_hyph l.reverse

theorem dropTrailing_hyph_eq_self {l : List Char}
    (h : headNotHyph l.reverse = true) : dropTrailing (fun c => c = '-') l = l := by
  unfold dropTrailing
  rw [dropWhile_hyph_eq_self h, List.reverse_reverse]

theorem dropTrailing_eq_self_of_all {p : Char → Bool} {l : List Char}
    (h : ∀ c ∈ l, p c = false) : dropTrailing p l = l := by
  unfold dropTrailing
  rw [dropWhile_eq_self_of_all (fun c hc => h c (List.mem_reverse.mp hc)),
    List.reverse_reverse]

/-! ### Properties of `stripEdgeHyphens` and of the whole pipeline -/

theorem mem_stripEdgeHyphens {c : Char} {l : List Char}
    (h : c ∈ stripEdgeHyphens l) : c ∈ l := by
  unfold stripEdgeHyphens at h
  exact mem_dropWhile (mem_dropTrailing h)

theorem stripEdgeHyphens_eq_self {l : List Char}
    (h1 : headNotHyph l = true) (h2 : headNotHyph l.reverse = true) :
    stripEdgeHyphens l = l := by
  unfold stripEdgeHyphens
  rw [dropWhile_hyph_eq_self h1, dropTrailing_hyph_eq_self h2]

theorem map_eq_self_of_fixed {f : Char → Char} :
    ∀ {l : List Char}, (∀ c ∈ l, f c = c) → l.map f = l := by
  intro l
  induction l with
  | nil => intro _; rfl
  | cons c r ih =>
    intro h
    rw [List.map_cons, h c (List.mem_cons_self _ _),
      ih (fun d hd => h d (List.mem_cons_of_mem _ hd))]

theorem slugCore_mem {c : Char} {l : List Char} (h : c ∈ slugCore l) :
    keepChar c = true ∧ lowerChar c = c := by
  unfold slugCore at h
  have h1 : c ∈ collapseHyph (filterWord (collapseSpaces (l.map lowerChar))) :=
    mem_stripEdgeHyphens h
  have h2 : c ∈ filterWord (collapseSpaces (l.map lowerChar)) :=
    mem_collapseHyphAux false _ h1
  unfold filterWord at h2
  rcases List.mem_filter.mp h2 with ⟨h3, hkeep⟩
  refine ⟨hkeep, ?_⟩
  rcases mem_collapseSpacesAux false _ h3 with h4 | ⟨h4, _⟩
  · subst h4; decide
  · rcases List.mem_map.mp h4 with ⟨d, _, rfl⟩
    exact lowerChar_idem d

theorem slugCore_noAdjHyph (l : List Char) : noAdjHyph (slugCore l) = true := by
  unfold slugCore stripEdgeHyphens
  exact noAdjHyph_dropTrailing (noAdjHyph_dropWhile ((collapseHyphAux_spec _).1 false))

theorem slugCore_headNotHyph (l : List Char) : headNotHyph (slugCore l) = true := by
  unfold slugCore stripEdgeHyphens
  exact headNotHyph_dropTrailing (headNotHyph_dropWhile_hyph _)

theorem slugCore_lastNotHyph (l : List Char) :
    headNotHyph (slugCore l).reverse = true := by
  unfold slugCore stripEdgeHyphens
  exact lastNotHyph_dropTrailing_hyph _

theorem slugCore_no_space {c : Char} {l : List Char} (h : c ∈ slugCore l) :
    jsIsSpace c = false :=
  keepChar_not_space (slugCore_mem h).1

/-- The slug pipeline is idempotent at the character-list level: its output
is already lower-case, whitespace-free, hyphen-collapsed and hyphen-trimmed,
so every pass acts as the identity on it. -/
theorem slugCore_idem (l : List Char) : slugCore (slugCore l) = slugCore l := by
  have hmap : (slugCore l).map lowerChar = slugCore l :=
    map_eq_self_of_fixed (fun c hc => (slugCore_mem hc).2)
  have hspaces : collapseSpaces (slugCore l) = slugCore l :=
    collapseSpacesAux_eq_self false _ (fun c hc => slugCore_no_space hc)
  have hfilter : filterWord (slugCore l) = slugCore l :=
    List.filter_eq_self.mpr (fun c hc => (slugCore_mem hc).1)
  have hhyph : collapseHyph (slugCore l) = slugCore l :=
    collapseHyphAux_eq_self _ false (slugCore_noAdjHyph l) (by intro h; exact absurd h (by simp))
  have hstrip : stripEdgeHyphens (slugCore l) = slugCore l :=
    stripEdgeHyphens_eq_self (slugCore_headNotHyph l) (slugCore_lastNotHyph l)
  conv_lhs => rw [slugCore]
  rw [hmap]
  rw [show collapseSpaces (slugCore l) = slugCore l from hspaces, hfilter,
    show collapseHyph (slugCore l) = slugCore l from hhyph, hstrip]

theorem trimWSList_slugCore (l : List Char) :
    trimWSList (slugCore l) = slugCore l := by
  unfold trimWSList
  rw [dropWhile_eq_self_of_all (fun c hc => slugCore_no_space hc)]
  exact dropTrailing_eq_self_of_all (fun c hc => slugCore_no_space hc)

/-! ### String-level idempotence of the slug deriver -/

theorem slugCreate_mk_data (s : String) : slugCreate s = String.mk (slugCore s.data) := by
  unfold slugCreate
  rw [trimWSList_slugCore]

theorem slugCreate_idem (s : String) : slugCreate (slugCreate s) = slugCreate s := by
  rw [slugCreate_mk_data s, slugCreate_mk_data (String.mk (slugCore s.data))]
  have hdata : (String.mk (slugCore s.data)).data = slugCore s.data := rfl
  rw [hdata, slugCore_idem]

theorem jsTrim_slugCreate (s : String) : jsTrim (slugCreate s) = slugCreate s := by
  rw [slugCreate_mk_data]
  unfold jsTrim
  have hdata : (String.mk (slugCore s.data)).data = slugCore s.data := rfl
  rw [hdata, trimWSList_slugCore]

theorem slugEffectCreate_idem (name : String) :
    slugEffectCreate (slugEffectCreate name) = slugEffectCreate name := by
  unfold slugEffectCreate
  by_cases h : jsTrim name = ""
  · rw [if_pos h, if_pos (show jsTrim "" = "" from rfl)]
  · rw [if_neg h]
    by_cases h2 : jsTrim (slugCreate name) = ""
    · rw [if_pos h2]
      rw [jsTrim_slugCreate] at h2
      exact h2.symm
    · rw [if_neg h2, slugCreate_idem]

/-! ### Claims C9 and C7 -/

/-- Claim C9: the slug derivation function of the create page is idempotent —
for every name string, `slug(slug(name)) == slug(name)` — and in particular
`slug("Manette DualSense Custom FIFA 25") == "manette-dualsense-custom-fifa-25"`. -/
theorem claim_c9 :
    (∀ name : String, slugEffectCreate (slugEffectCreate name) = slugEffectCreate name)
    ∧ slugEffectCreate "Manette DualSense Custom FIFA 25"
        = "manette-dualsense-custom-fifa-25" :=
  ⟨slugEffectCreate_idem, by decide⟩

/-- Claim C7, counterexample: in edit v1, the slug effect recomputes the slug
from the name unconditionally — it never checks whether the slug field is
empty — so with current slug `"curated-slug"` a name change to `"New Name"`
overwrites the slug with `"new-name"`.  This falsifies "for every state in
which the slug string is non-empty, a change to the name leaves the slug
unchanged". -/
theorem claim_c7_counterexample :
    slugEffectEditV1 "New Name" "curated-slug" = "new-name"
    ∧ slugEffectEditV1 "New Name" "curated-slug" ≠ "curated-slug" := by
  exact ⟨by decide, by decide⟩

/-- Claim C7, amended: only the second edit-page version guards the slug
recomputation on the slug field being empty: for every state whose slug
string is non-empty, a name change leaves the slug unchanged in edit v2.
(Edit v1 recomputes the slug on every name change, overwriting it.) -/
theorem claim_c7_amended (name currentSlug : String) (h : currentSlug ≠ "") :
    slugEffectEditV2 name currentSlug = currentSlug := by
  unfold slugEffectEditV2
  rw [if_neg]
  intro hcon
  exact h hcon.2

theorem claim_c7_witness :
    slugEffectEditV2 "New Name" "curated-slug" = "curated-slug" :=
  claim_c7_amended "New Name" "curated-slug" (by decide)

/-! ## Data model

One variant record type per source file, mirroring the TypeScript
interfaces.  `File` objects are opaque tokens. -/

/-- Opaque model of a browser `File` object. -/
abbrev FileRef := Nat

/-- Edit v1 `ImageItem { file?: File; preview: string; url?: string }`. -/
structure ImageItem where
  file : Option FileRef
  preview : String
  url : Option String
deriving DecidableEq

/-- Edit v1 `Variant` (`_id?`, name, sku, price, stock, isDefault, images).
`mongoId` models the `_id` field. -/
structure E1Variant where
  mongoId : Option String
  name : String
  sku : String
  price : Int
  stock : Int
  isDefault : Bool
  images : List ImageItem
deriving DecidableEq

/-- Create page `VariantImage { file: File; preview: string }`. -/
structure CVariantImage where
  file : FileRef
  preview : String
deriving DecidableEq

/-- Create page `Variant` (name, sku, price, stock, isDefault, images,
uploadedImageUrls). -/
structure CVariant where
  name : String
  sku : String
  price : Int
  stock : Int
  isDefault : Bool
  images : List CVariantImage
  uploadedImageUrls : List String
deriving DecidableEq

/-- Edit v2 `VariantImage { file?: File; preview: string; isNew?: boolean }`. -/
structure E2VariantImage where
  file : Option FileRef
  preview : String
  isNew : Option Bool
deriving DecidableEq

/-- Edit v2 `Variant` (`_id?`, name, sku, price, stock, isDefault, images,
uploadedImageUrls). -/
structure E2Variant where
  mongoId : Option String
  name : String
  sku : String
  price : Int
  stock : Int
  isDefault : Bool
  images : List E2VariantImage
  uploadedImageUrls : List String
deriving DecidableEq

/-! ## Variant collection operations (claims C1 and C3)

`updateVariant(index, field, value)` receives an arbitrary field/value
pair; the pair is modelled as one constructor per assignable field. -/

/-- A field/value pair passed to the create page `updateVariant`. -/
inductive CValue
  | nameV (s : String)
  | skuV (s : String)
  | priceV (n : Int)
  | stockV (n : Int)
  | isDefaultV (b : Bool)
  | imagesV (l : List CVariantImage)
  | uploadedImageUrlsV (l : List String)
deriving DecidableEq

/-- `updated[index] = { ...updated[index], [field]: value }` for the create
page. -/
def setCValue (v : CVariant) : CValue → CVariant
  | .nameV s => { v with name := s }
  | .skuV s => { v with sku := s }
  | .priceV n => { v with price := n }
  | .stockV n => { v with stock := n }
  | .isDefaultV b => { v with isDefault := b }
  | .imagesV l => { v with images := l }
  | .uploadedImageUrlsV l => { v with uploadedImageUrls := l }

/-- The loop `updated.forEach((v, i) => { v.isDefault = i === index })` of the
create page `updateVariant` (the running position `i` is threaded
explicitly). -/
def forEachSetDefaultC (index : Nat) : Nat → List CVariant → List CVariant
  | _, [] => []
  | i, v :: rest => { v with isDefault := i == index } :: forEachSetDefaultC index (i + 1) rest

/-- `ProductCreate.tsx` lines 110–123, `updateVariant`: setting
`isDefault = true` on index `i` clears the flag on every other variant;
any other field/value pair replaces that one field on that one variant.
(An out-of-range index would throw in JavaScript; the model leaves the
list unchanged, and every claim constrains the index to be in range.) -/
def updateVariantCreate (vs : List CVariant) (index : Nat) (val : CValue) : List CVariant :=
  match val with
  | .isDefaultV true => forEachSetDefaultC index 0 vs
  | f =>
    match vs[index]? with
    | some v => vs.set index (setCValue v f)
    | none => vs

/-- A field/value pair passed to the edit v1 `updateVariant`. -/
inductive E1Value
  | mongoIdV (s : Option String)
  | nameV (s : String)
  | skuV (s : String)
  | priceV (n : Int)
  | stockV (n : Int)
  | isDefaultV (b : Bool)
  | imagesV (l : List ImageItem)
deriving DecidableEq

def setE1Value (v : E1Variant) : E1Value → E1Variant
  | .mongoIdV s => { v with mongoId := s }
  | .nameV s => { v with name := s }
  | .skuV s => { v with sku := s }
  | .priceV n => { v with price := n }
  | .stockV n => { v with stock := n }
  | .isDefaultV b => { v with isDefault := b }
  | .imagesV l => { v with images := l }

/-- Edit v1 lines 225–231, `updateVariant`: plain
`copy[index] = { ...copy[index], [field]: value }` — no special case for
`isDefault`, so no mutual exclusion of the default flag. -/
def updateVariantEditV1 (vs : List E1Variant) (index : Nat) (val : E1Value) : List E1Variant :=
  match vs[index]? with
  | some v => vs.set index (setE1Value v val)
  | none => vs

/-- A field/value pair passed to the edit v2 `updateVariant`. -/
inductive E2Value
  | mongoIdV (s : Option String)
  | nameV (s : String)
  | skuV (s : String)
  | priceV (n : Int)
  | stockV (n : Int)
  | isDefaultV (b : Bool)
  | imagesV (l : List E2VariantImage)
  | uploadedImageUrlsV (l : List String)
deriving DecidableEq

def setE2Value (v : E2Variant) : E2Value → E2Variant
  | .mongoIdV s => { v with mongoId := s }
  | .nameV s => { v with name := s }
  | .skuV s => { v with sku := s }
  | .priceV n => { v with price := n }
  | .stockV n => { v with stock := n }
  | .isDefaultV b => { v with isDefault := b }
  | .imagesV l => { v with images := l }
  | .uploadedImageUrlsV l => { v with uploadedImageUrls := l }

def forEachSetDefaultE2 (index : Nat) : Nat → List E2Variant → List E2Variant
  | _, [] => []
  | i, v :: rest => { v with isDefault := i == index } :: forEachSetDefaultE2 index (i + 1) rest

/-- Edit v2 lines 891–901, `updateVariant`: same shape as the create page
(mutual exclusion when setting `isDefault = true`). -/
def updateVariantEditV2 (vs : List E2Variant) (index : Nat) (val : E2Value) : List E2Variant :=
  match val with
  | .isDefaultV true => forEachSetDefaultE2 index 0 vs
  | f =>
    match vs[index]? with
    | some v => vs.set index (setE2Value v f)
    | none => vs

/-- `updated[0].isDefault = true` (create page / edit v2 repair after
removal; a no-op on the empty list, which in the source is unreachable
behind the length guard). -/
def setFirstDefaultC : List CVariant → List CVariant
  | [] => []
  | v :: rest => { v with isDefault := true } :: rest

/-- `ProductCreate.tsx` lines 92–108, `removeVariant`: refuses (toast
`'Au moins une variante est obligatoire'`, no mutation) when only one
variant is left; otherwise filters out the index and, if no default
remains, marks the first remaining variant default. -/
def removeVariantCreate (vs : List CVariant) (index : Nat) : List CVariant :=
  if vs.length = 1 then vs
  else if (vs.eraseIdx index).any (fun v => v.isDefault) then vs.eraseIdx index
  else setFirstDefaultC (vs.eraseIdx index)

/-- The map `next.map((v, i) => (i === 0 ? { ...v, isDefault: true } : v))`
of edit v1 `removeVariant`. -/
def promoteFirstE1 : Nat → List E1Variant → List E1Variant
  | _, [] => []
  | i, v :: rest =>
    (if i == 0 then { v with isDefault := true } else v) :: promoteFirstE1 (i + 1) rest

/-- Edit v1 lines 214–223, `removeVariant`: no length guard; if the removed
variant was default and the remainder is non-empty, the first remaining
variant is made default. -/
def removeVariantEditV1 (vs : List E1Variant) (index : Nat) : List E1Variant :=
  if (((vs[index]?).map (fun v => v.isDefault)).getD false) ∧ 0 < (vs.eraseIdx index).length
  then promoteFirstE1 0 (vs.eraseIdx index)
  else vs.eraseIdx index

def setFirstDefaultE2 : List E2Variant → List E2Variant
  | [] => []
  | v :: rest => { v with isDefault := true } :: rest

/-- Edit v2 lines 876–889, `removeVariant`: same shape as the create page. -/
def removeVariantEditV2 (vs : List E2Variant) (index : Nat) : List E2Variant :=
  if vs.length = 1 then vs
  else if (vs.eraseIdx index).any (fun v => v.isDefault) then vs.eraseIdx index
  else setFirstDefaultE2 (vs.eraseIdx index)

/-! ### Counting defaults -/

/-- Number of elements satisfying `p`. -/
def countTrue {α : Type} (p : α → Bool) (l : List α) : Nat :=
  (l.filter p).length

/-- "Exactly one default, and it sits at `index`". -/
def uniqueDefaultAt {α : Type} (isDef : α → Bool) (vs : List α) (index : Nat) : Prop :=
  countTrue isDef vs = 1 ∧ ((vs[index]?).map isDef) = some true

theorem countTrue_eq_zero {α : Type} {p : α → Bool} :
    ∀ {l : List α}, (∀ j : Nat, ((l[j]?).map p) ≠ some true) → countTrue p l = 0 := by
  intro l
  induction l with
  | nil => intro _; rfl
  | cons a r ih =>
    intro h
    have ha : p a = false := by
      have h0 := h 0
      simp only [List.getElem?_cons_zero, Option.map_some'] at h0
      rcases Bool.eq_false_or_eq_true (p a) with ht | hf
      · exact absurd (by rw [ht]) h0
      · exact hf
    have hr : countTrue p r = 0 := ih (fun j => by
      have := h (j + 1)
      simpa only [List.getElem?_cons_succ] using this)
    unfold countTrue at hr ⊢
    rw [List.filter_cons, ha]
    simpa using hr

theorem countTrue_eq_one {α : Type} {p : α → Bool} :
    ∀ {l : List α} {index : Nat}, ((l[index]?).map p) = some true →
      (∀ j : Nat, j ≠ index → ((l[j]?).map p) ≠ some true) → countTrue p l = 1 := by
  intro l
  induction l with
  | nil => intro index h _; simp at h
  | cons a r ih =>
    intro index h hother
    cases index with
    | zero =>
      simp only [List.getElem?_cons_zero, Option.map_some'] at h
      have ha : p a = true := by injection h
      have hr : countTrue p r = 0 := countTrue_eq_zero (fun j => by
        have := hother (j + 1) (by omega)
        simpa only [List.getElem?_cons_succ] using this)
      unfold countTrue at hr ⊢
      rw [List.filter_cons, ha]
      simpa using hr
    | succ i =>
      simp only [List.getElem?_cons_succ] at h
      have ha : p a = false := by
        have h0 := hother 0 (by omega)
        simp only [List.getElem?_cons_zero, Option.map_some'] at h0
        rcases Bool.eq_false_or_eq_true (p a) with ht | hf
        · exact absurd (by rw [ht]) h0
        · exact hf
      have hr : countTrue p r = 1 := ih h (fun j hj => by
        have := hother (j + 1) (by omega)
        simpa only [List.getElem?_cons_succ] using this)
      unfold countTrue at hr ⊢
      rw [List.filter_cons, ha]
      simpa using hr

theorem getElem?_eraseIdx_my {α : Type} :
    ∀ (l : List α) (i j : Nat),
      ((l.eraseIdx i)[j]?) = if j < i then l[j]? else l[j + 1]? := by
  intro l
  induction l with
  | nil => intro i j; cases i <;> cases j <;> simp [List.eraseIdx]
  | cons a r ih =>
    intro i j
    cases i with
    | zero => simp [List.eraseIdx]
    | succ i =>
      cases j with
      | zero => simp [List.eraseIdx]
      | succ j =>
        simp only [List.eraseIdx, List.getElem?_cons_succ]
        rw [ih i j]
        by_cases hji : j < i
        · rw [if_pos hji, if_pos (by omega)]
        · rw [if_neg hji, if_neg (by omega)]

theorem any_eq_false_of_getElem? {α : Type} {p : α → Bool} {l : List α}
    (h : ∀ j : Nat, ((l[j]?).map p) ≠ some true) : l.any p = false := by
  rcases Bool.eq_false_or_eq_true (l.any p) with ht | hf
  · exfalso
    rcases List.any_eq_true.mp ht with ⟨x, hx, hpx⟩
    rcases List.mem_iff_getElem?.mp hx with ⟨j, hj⟩
    exact h j (by rw [hj, Option.map_some', hpx])
  · exact hf

/-! ### Claim C1 -/

theorem forEachSetDefaultC_getElem? (index : Nat) :
    ∀ (l : List CVariant) (i j : Nat),
      ((forEachSetDefaultC index i l)[j]?) =
        (l[j]?).map (fun v => { v with isDefault := (i + j) == index }) := by
  intro l
  induction l with
  | nil => intro i j; simp [forEachSetDefaultC]
  | cons v rest ih =>
    intro i j
    cases j with
    | zero => simp [forEachSetDefaultC]
    | succ j =>
      simp only [forEachSetDefaultC, List.getElem?_cons_succ]
      rw [ih (i + 1) j]
      have harith : i + 1 + j = i + (j + 1) := by omega
      rw [harith]

theorem forEachSetDefaultE2_getElem? (index : Nat) :
    ∀ (l : List E2Variant) (i j : Nat),
      ((forEachSetDefaultE2 index i l)[j]?) =
        (l[j]?).map (fun v => { v with isDefault := (i + j) == index }) := by
  intro l
  induction l with
  | nil => intro i j; simp [forEachSetDefaultE2]
  | cons v rest ih =>
    intro i j
    cases j with
    | zero => simp [forEachSetDefaultE2]
    | succ j =>
      simp only [forEachSetDefaultE2, List.getElem?_cons_succ]
      rw [ih (i + 1) j]
      have harith : i + 1 + j = i + (j + 1) := by omega
      rw [harith]

theorem updateVariantCreate_default (vs : List CVariant) (index : Nat)
    (h : index < vs.length) :
    uniqueDefaultAt (fun v => v.isDefault)
      (updateVariantCreate vs index (.isDefaultV true)) index := by
  have hpt : ∀ j : Nat,
      (((updateVariantCreate vs index (.isDefaultV true))[j]?).map (fun v => v.isDefault))
        = (vs[j]?).map (fun _ => j == index) := by
    intro j
    show (((forEachSetDefaultC index 0 vs)[j]?).map (fun v => v.isDefault)) = _
    rw [forEachSetDefaultC_getElem?]
    cases vs[j]? <;> simp
  constructor
  · have h1 : (((updateVariantCreate vs index (.isDefaultV true))[index]?).map
        (fun v => v.isDefault)) = some true := by
      rw [hpt index, List.getElem?_eq_getElem h]
      simp
    refine countTrue_eq_one h1 ?_
    intro j hj
    rw [hpt j]
    cases vs[j]?
    · simp
    · simpa using hj
  · rw [hpt index, List.getElem?_eq_getElem h]
    simp

theorem updateVariantEditV2_default (vs : List E2Variant) (index : Nat)
    (h : index < vs.length) :
    uniqueDefaultAt (fun v => v.isDefault)
      (updateVariantEditV2 vs index (.isDefaultV true)) index := by
  have hpt : ∀ j : Nat,
      (((updateVariantEditV2 vs index (.isDefaultV true))[j]?).map (fun v => v.isDefault))
        = (vs[j]?).map (fun _ => j == index) := by
    intro j
    show (((forEachSetDefaultE2 index 0 vs)[j]?).map (fun v => v.isDefault)) = _
    rw [forEachSetDefaultE2_getElem?]
    cases vs[j]? <;> simp
  constructor
  · have h1 : (((updateVariantEditV2 vs index (.isDefaultV true))[index]?).map
        (fun v => v.isDefault)) = some true := by
      rw [hpt index, List.getElem?_eq_getElem h]
      simp
    refine countTrue_eq_one h1 ?_
    intro j hj
    rw [hpt j]
    cases vs[j]?
    · simp
    · simpa using hj
  · rw [hpt index, List.getElem?_eq_getElem h]
    simp

theorem updateVariantEditV1_default (vs : List E1Variant) (index : Nat)
    (h : index < vs.length)
    (hother : ∀ j : Nat, j ≠ index → ((vs[j]?).map (fun v => v.isDefault)) ≠ some true) :
    uniqueDefaultAt (fun v => v.isDefault)
      (updateVariantEditV1 vs index (.isDefaultV true)) index := by
  have hsome : vs[index]? = some vs[index] := List.getElem?_eq_getElem h
  have hres : updateVariantEditV1 vs index (.isDefaultV true)
      = vs.set index { vs[index] with isDefault := true } := by
    unfold updateVariantEditV1
    rw [hsome]
    rfl
  rw [hres]
  have hpt : ∀ j : Nat, ((vs.set index { vs[index] with isDefault := true })[j]?)
      = if index = j then some { vs[index] with isDefault := true } else vs[j]? := by
    intro j
    rw [List.getElem?_set]
    by_cases hij : index = j
    · rw [if_pos hij, if_pos h, if_pos hij]
    · rw [if_neg hij, if_neg hij]
  constructor
  · have h1 : (((vs.set index { vs[index] with isDefault := true })[index]?).map
        (fun v => v.isDefault)) = some true := by
      rw [hpt index, if_pos rfl]
      simp
    refine countTrue_eq_one h1 ?_
    intro j hj
    rw [hpt j, if_neg (by omega)]
    exact hother j hj
  · rw [hpt index, if_pos rfl]
    simp

/-- The three edit v1 variants used by concrete counterexamples: `vA` and
`vC` are flagged default, `vB` is not. -/
def vA : E1Variant :=
  { mongoId := none, name := "A", sku := "A1", price := 10, stock := 1,
    isDefault := true, images := [] }

def vB : E1Variant :=
  { mongoId := none, name := "B", sku := "B1", price := 20, stock := 1,
    isDefault := false, images := [] }

def vC : E1Variant :=
  { mongoId := none, name := "C", sku := "C1", price := 30, stock := 1,
    isDefault := true, images := [] }

/-- Claim C1, counterexample: the edit v1 `updateVariant` (part_000 lines
225–231) merely sets the field, so `update(1, 'isDefault', true)` on
`[vA (default), vB]` leaves `vA` default as well — two defaults, not
exactly one. -/
theorem claim_c1_counterexample :
    countTrue (fun v => v.isDefault)
      (updateVariantEditV1 [vA, vB] 1 (.isDefaultV true)) = 2 := by
  decide

/-- Claim C1, amended: after `update(i, 'isDefault', true)` on a valid index
of a non-empty collection, exactly one variant is default (the one at index
`i`) for the create page and the edit v2 `updateVariant`; the edit v1
`updateVariant` only sets the flag on variant `i`, so the conclusion there
additionally requires that no other variant was already default. -/
theorem claim_c1_amended :
    (∀ (vs : List CVariant) (index : Nat), index < vs.length →
      uniqueDefaultAt (fun v => v.isDefault)
        (updateVariantCreate vs index (.isDefaultV true)) index)
    ∧ (∀ (vs : List E2Variant) (index : Nat), index < vs.length →
      uniqueDefaultAt (fun v => v.isDefault)
        (updateVariantEditV2 vs index (.isDefaultV true)) index)
    ∧ (∀ (vs : List E1Variant) (index : Nat), index < vs.length →
      (∀ j : Nat, j ≠ index → ((vs[j]?).map (fun v => v.isDefault)) ≠ some true) →
      uniqueDefaultAt (fun v => v.isDefault)
        (updateVariantEditV1 vs index (.isDefaultV true)) index) :=
  ⟨updateVariantCreate_default, updateVariantEditV2_default, updateVariantEditV1_default⟩

theorem claim_c1_witness :
    (0 : Nat) < ([vA, vB] : List E1Variant).length
    ∧ uniqueDefaultAt (fun v => v.isDefault)
        (updateVariantEditV1 [vA, vB] 0 (.isDefaultV true)) 0 := by
  refine ⟨by decide, claim_c1_amended.2.2 [vA, vB] 0 (by decide) ?_⟩
  intro j hj
  match j, hj with
  | 1, _ => decide
  | (n + 2), _ => simp

/-! ### Claim C3 -/

theorem promoteFirstE1_of_ne_zero :
    ∀ (l : List E1Variant) (i : Nat), i ≠ 0 → promoteFirstE1 i l = l := by
  intro l
  induction l with
  | nil => intro i _; rfl
  | cons v rest ih =>
    intro i hi
    simp only [promoteFirstE1]
    rw [if_neg (by simpa using hi), ih (i + 1) (by omega)]

theorem promoteFirstE1_cons (w : E1Variant) (rest : List E1Variant) :
    promoteFirstE1 0 (w :: rest) = { w with isDefault := true } :: rest := by
  simp only [promoteFirstE1]
  rw [if_pos (by decide), promoteFirstE1_of_ne_zero rest (0 + 1) (by omega)]

theorem eraseIdx_no_default {α : Type} {isDef : α → Bool} {vs : List α} {index : Nat}
    (hother : ∀ j : Nat, j ≠ index → ((vs[j]?).map isDef) ≠ some true) :
    ∀ j : Nat, (((vs.eraseIdx index)[j]?).map isDef) ≠ some true := by
  intro j
  rw [getElem?_eraseIdx_my]
  by_cases hji : j < index
  · rw [if_pos hji]
    exact hother j (by omega)
  · rw [if_neg hji]
    exact hother (j + 1) (by omega)

theorem removeVariantCreate_spec (vs : List CVariant) (index : Nat)
    (hlen : 2 ≤ vs.length) (hidx : index < vs.length)
    (hother : ∀ j : Nat, j ≠ index → ((vs[j]?).map (fun v => v.isDefault)) ≠ some true) :
    uniqueDefaultAt (fun v => v.isDefault) (removeVariantCreate vs index) 0 := by
  have herase := eraseIdx_no_default hother
  have hany := any_eq_false_of_getElem? herase
  have hlen' : (vs.eraseIdx index).length = vs.length - 1 := by
    rw [List.length_eraseIdx, if_pos hidx]
  have hres : removeVariantCreate vs index = setFirstDefaultC (vs.eraseIdx index) := by
    unfold removeVariantCreate
    rw [if_neg (by omega), if_neg (by simp [hany])]
  rw [hres]
  obtain ⟨w, rest, hwr⟩ : ∃ w rest, vs.eraseIdx index = w :: rest := by
    cases he : vs.eraseIdx index with
    | nil => rw [he] at hlen'; simp at hlen'; omega
    | cons w rest => exact ⟨w, rest, rfl⟩
  rw [hwr]
  have hrest : ∀ j : Nat, ((rest[j]?).map (fun v => v.isDefault)) ≠ some true := by
    intro j
    have hj := herase (j + 1)
    rw [hwr] at hj
    simpa using hj
  constructor
  · have h1 : (((setFirstDefaultC (w :: rest))[0]?).map (fun v => v.isDefault))
        = some true := by
      simp [setFirstDefaultC]
    refine countTrue_eq_one h1 ?_
    intro j hj
    match j, hj with
    | (j + 1), _ =>
      show (((setFirstDefaultC (w :: rest))[j + 1]?).map (fun v => v.isDefault)) ≠ some true
      simp only [setFirstDefaultC, List.getElem?_cons_succ]
      exact hrest j
  · simp [setFirstDefaultC]

theorem removeVariantEditV2_spec (vs : List E2Variant) (index : Nat)
    (hlen : 2 ≤ vs.length) (hidx : index < vs.length)
    (hother : ∀ j : Nat, j ≠ index → ((vs[j]?).map (fun v => v.isDefault)) ≠ some true) :
    uniqueDefaultAt (fun v => v.isDefault) (removeVariantEditV2 vs index) 0 := by
  have herase := eraseIdx_no_default hother
  have hany := any_eq_false_of_getElem? herase
  have hlen' : (vs.eraseIdx index).length = vs.length - 1 := by
    rw [List.length_eraseIdx, if_pos hidx]
  have hres : removeVariantEditV2 vs index = setFirstDefaultE2 (vs.eraseIdx index) := by
    unfold removeVariantEditV2
    rw [if_neg (by omega), if_neg (by simp [hany])]
  rw [hres]
  obtain ⟨w, rest, hwr⟩ : ∃ w rest, vs.eraseIdx index = w :: rest := by
    cases he : vs.eraseIdx index with
    | nil => rw [he] at hlen'; simp at hlen'; omega
    | cons w rest => exact ⟨w, rest, rfl⟩
  rw [hwr]
  have hrest : ∀ j : Nat, ((rest[j]?).map (fun v => v.isDefault)) ≠ some true := by
    intro j
    have hj := herase (j + 1)
    rw [hwr] at hj
    simpa using hj
  constructor
  · have h1 : (((setFirstDefaultE2 (w :: rest))[0]?).map (fun v => v.isDefault))
        = some true := by
      simp [setFirstDefaultE2]
    refine countTrue_eq_one h1 ?_
    intro j hj
    match j, hj with
    | (j + 1), _ =>
      show (((setFirstDefaultE2 (w :: rest))[j + 1]?).map (fun v => v.isDefault)) ≠ some true
      simp only [setFirstDefaultE2, List.getElem?_cons_succ]
      exact hrest j
  · simp [setFirstDefaultE2]

theorem removeVariantEditV1_spec (vs : List E1Variant) (index : Nat)
    (hlen : 2 ≤ vs.length) (hidx : index < vs.length)
    (hdef : ((vs[index]?).map (fun v => v.isDefault)) = some true)
    (hother : ∀ j : Nat, j ≠ index → ((vs[j]?).map (fun v => v.isDefault)) ≠ some true) :
    uniqueDefaultAt (fun v => v.isDefault) (removeVariantEditV1 vs index) 0 := by
  have herase := eraseIdx_no_default hother
  have hlen' : (vs.eraseIdx index).length = vs.length - 1 := by
    rw [List.length_eraseIdx, if_pos hidx]
  have hres : removeVariantEditV1 vs index = promoteFirstE1 0 (vs.eraseIdx index) := by
    unfold removeVariantEditV1
    rw [if_pos ⟨by rw [hdef]; rfl, by omega⟩]
  rw [hres]
  obtain ⟨w, rest, hwr⟩ : ∃ w rest, vs.eraseIdx index = w :: rest := by
    cases he : vs.eraseIdx index with
    | nil => rw [he] at hlen'; simp at hlen'; omega
    | cons w rest => exact ⟨w, rest, rfl⟩
  rw [hwr, promoteFirstE1_cons]
  have hrest : ∀ j : Nat, ((rest[j]?).map (fun v => v.isDefault)) ≠ some true := by
    intro j
    have hj := herase (j + 1)
    rw [hwr] at hj
    simpa using hj
  constructor
  · have h1 : ((({ w with isDefault := true } :: rest)[0]?).map (fun v => v.isDefault))
        = some true := by
      simp
    refine countTrue_eq_one h1 ?_
    intro j hj
    match j, hj with
    | (j + 1), _ =>
      show (((({ w with isDefault := true } :: rest))[j + 1]?).map (fun v => v.isDefault))
        ≠ some true
      simp only [List.getElem?_cons_succ]
      exact hrest j
  · simp

/-- Claim C3, counterexample: the claim quantifies over every variant
collection, including those where another variant besides the removed one is
flagged default.  In edit v1 (part_000 lines 214–223), removing the default
at index 0 of `[vA (default), vB, vC (default)]` promotes the new first
variant as well, producing two defaults — not exactly one at index 0. -/
theorem claim_c3_counterexample :
    countTrue (fun v => v.isDefault) (removeVariantEditV1 [vA, vB, vC] 0) = 2 := by
  decide

/-- Claim C3, amended: when the removed variant at index `i` is the unique
default of the collection (and the collection keeps at least one variant,
i.e. it had at least two), `remove(i)` leaves exactly one default and it is
at index 0 — in all three implementations (create page, edit v1, edit v2). -/
theorem claim_c3_amended :
    (∀ (vs : List CVariant) (index : Nat), 2 ≤ vs.length → index < vs.length →
      (∀ j : Nat, j ≠ index → ((vs[j]?).map (fun v => v.isDefault)) ≠ some true) →
      uniqueDefaultAt (fun v => v.isDefault) (removeVariantCreate vs index) 0)
    ∧ (∀ (vs : List E2Variant) (index : Nat), 2 ≤ vs.length → index < vs.length →
      (∀ j : Nat, j ≠ index → ((vs[j]?).map (fun v => v.isDefault)) ≠ some true) →
      uniqueDefaultAt (fun v => v.isDefault) (removeVariantEditV2 vs index) 0)
    ∧ (∀ (vs : List E1Variant) (index : Nat), 2 ≤ vs.length → index < vs.length →
      ((vs[index]?).map (fun v => v.isDefault)) = some true →
      (∀ j : Nat, j ≠ index → ((vs[j]?).map (fun v => v.isDefault)) ≠ some true) →
      uniqueDefaultAt (fun v => v.isDefault) (removeVariantEditV1 vs index) 0) :=
  ⟨removeVariantCreate_spec, removeVariantEditV2_spec, removeVariantEditV1_spec⟩

theorem claim_c3_witness :
    (2 : Nat) ≤ ([vA, vB] : List E1Variant).length
    ∧ uniqueDefaultAt (fun v => v.isDefault) (removeVariantEditV1 [vA, vB] 0) 0 := by
  refine ⟨by decide, claim_c3_amended.2.2 [vA, vB] 0 (by decide) (by decide) (by decide) ?_⟩
  intro j hj
  match j, hj with
  | 1, _ => decide
  | (n + 2), _ => simp

/-! ## Image uploads (claims C5 and C6)

The network collaborators appear as outcome parameters: an upload outcome
`some urls` is a successful response (with `res.data.urls ?? []` already
applied), `none` a failed request.  Every network request the code would
issue is recorded in a `calls` list. -/

/-- A network request issued by the engine. -/
inductive NetCall
  | uploadImages (files : List FileRef)
  | postProduct
  | putProduct
deriving DecidableEq

/-- `images.map(img => img.url!).filter(Boolean)` (and the catch-branch
variant `img.url || ''`): the non-empty URLs of all items in order — a
missing `url` yields `undefined` / `''`, which `filter(Boolean)` drops. -/
def jsUrlList (imgs : List ImageItem) : List String :=
  (imgs.map (fun img => img.url.getD "")).filter (fun s => s ≠ "")

/-- `images.filter(img => !!img.file)` — the pending ("new") items. -/
def pendingE1 (imgs : List ImageItem) : List ImageItem :=
  imgs.filter (fun img => img.file.isSome)

/-- `images.filter(img => !img.file).map(img => img.url!).filter(Boolean)` —
the URLs of the already-persisted items, in their original order. -/
def existingUrlsE1 (imgs : List ImageItem) : List String :=
  ((imgs.filter (fun img => !img.file.isSome)).map (fun img => img.url.getD "")).filter
    (fun s => s ≠ "")

/-- The files appended to the multipart body in list order
(`toUpload.forEach(({ file }) => file && formData.append('images', file))`). -/
def pendingFilesE1 (imgs : List ImageItem) : List FileRef :=
  (pendingE1 imgs).filterMap (fun img => img.file)

/-- Edit v1 upload error toast:
the text `Échec upload images variante ` followed by the variant name, or by
`#` and the 1-based index when the name is empty (falsy). -/
def e1UploadErrMsg (vIdx : Nat) (name : String) : String :=
  "Échec upload images variante " ++ (if name = "" then "#" ++ toString (vIdx + 1) else name)

/-- `finalUrls.map(url => ({ url, preview: url }))`: the refreshed image item
for one persisted URL. -/
def urlToItem (u : String) : ImageItem :=
  { file := none, preview := u, url := some u }

/-- Result of one run of an edit v1 per-variant upload. -/
structure E1UploadResult where
  urls : List String
  err : Option String
  calls : List NetCall
  variant : E1Variant
deriving DecidableEq

/-- Edit v1 lines 263–300, `uploadVariantImages(vIdx)`: with no pending item
it returns the URL list with no network call; otherwise it issues one
batched upload; on success it returns `existing ++ new` and rewrites the
variant's image set to exactly those URLs; on failure it reports the
variant-scoped toast and returns the URLs still present on the items. -/
def uploadVariantImagesV1 (vIdx : Nat) (v : E1Variant) (outcome : Option (List String)) :
    E1UploadResult :=
  if pendingE1 v.images = [] then
    { urls := jsUrlList v.images, err := none, calls := [], variant := v }
  else
    match outcome with
    | some newUrls =>
      { urls := existingUrlsE1 v.images ++ newUrls, err := none,
        calls := [.uploadImages (pendingFilesE1 v.images)],
        variant := { v with images := (existingUrlsE1 v.images ++ newUrls).map urlToItem } }
    | none =>
      { urls := jsUrlList v.images, err := some (e1UploadErrMsg vIdx v.name),
        calls := [.uploadImages (pendingFilesE1 v.images)], variant := v }

/-- Result of one run of the edit v1 global upload. -/
structure GUploadResult where
  urls : List String
  err : Option String
  calls : List NetCall
  images : List ImageItem
deriving DecidableEq

/-- Edit v1 lines 162–196, `uploadGlobalImages()`: same shape as the
per-variant helper, with the toast `'Échec upload images globales'`. -/
def uploadGlobalImagesV1 (imgs : List ImageItem) (outcome : Option (List String)) :
    GUploadResult :=
  if pendingE1 imgs = [] then
    { urls := jsUrlList imgs, err := none, calls := [], images := imgs }
  else
    match outcome with
    | some newUrls =>
      { urls := existingUrlsE1 imgs ++ newUrls, err := none,
        calls := [.uploadImages (pendingFilesE1 imgs)],
        images := (existingUrlsE1 imgs ++ newUrls).map urlToItem }
    | none =>
      { urls := jsUrlList imgs, err := some "Échec upload images globales",
        calls := [.uploadImages (pendingFilesE1 imgs)], images := imgs }

/-- The per-variant upload results of the edit v1 submit loop
(lines 355–358: `for (i…) await uploadVariantImages(i)`).  Each iteration
reads and replaces only the variant at its own index, so the loop equals
this index-threaded map: entry `k` is the result for absolute index
`i + k` with that index's own outcome. -/
def e1ResultsFrom (outs : Nat → Option (List String)) : Nat → List E1Variant → List E1UploadResult
  | _, [] => []
  | i, v :: rest => uploadVariantImagesV1 i v (outs i) :: e1ResultsFrom outs (i + 1) rest

/-- Edit v1 submit upload phase: the post-upload variant list, the upload
error toasts in order, and the network calls in order. -/
def e1UploadPhase (outs : Nat → Option (List String)) (vs : List E1Variant) :
    List E1Variant × List String × List NetCall :=
  ((e1ResultsFrom outs 0 vs).map (fun r => r.variant),
   (e1ResultsFrom outs 0 vs).filterMap (fun r => r.err),
   ((e1ResultsFrom outs 0 vs).map (fun r => r.calls)).flatten)

/-- Create page upload error toast: `Erreur upload images variante "name"`. -/
def cUploadErrMsg (name : String) : String :=
  "Erreur upload images variante \"" ++ name ++ "\""

/-- Result of one run of the create page `uploadVariantImages`. -/
structure CUploadResult where
  urls : List String
  err : Option String
  calls : List NetCall
  variant : CVariant
deriving DecidableEq

/-- ProductCreate lines 151–172, `uploadVariantImages`: with no local image
it returns `uploadedImageUrls` (no network call); otherwise it issues one
batched upload of all local files; on success it pushes the new URLs onto
the variant's `uploadedImageUrls` (an in-place mutation of the shared
variant object, modelled by the returned variant) and returns the new URLs
only; on failure it reports the variant-scoped toast and returns `[]`. -/
def createUploadVariantImages (v : CVariant) (outcome : Option (List String)) : CUploadResult :=
  if v.images = [] then
    { urls := v.uploadedImageUrls, err := none, calls := [], variant := v }
  else
    match outcome with
    | some newUrls =>
      { urls := newUrls, err := none,
        calls := [.uploadImages (v.images.map (fun img => img.file))],
        variant := { v with uploadedImageUrls := v.uploadedImageUrls ++ newUrls } }
    | none =>
      { urls := [], err := some (cUploadErrMsg v.name),
        calls := [.uploadImages (v.images.map (fun img => img.file))], variant := v }

/-- One iteration of the ProductCreate submit upload loop (lines 199–205):
`variantsWithImages[i].uploadedImageUrls = [...current, ...variantUrls]`,
where `current` is the value after the helper's internal push — the helper
and the loop body operate on the same variant object. -/
def createSubmitStep (v : CVariant) (outcome : Option (List String)) : CVariant :=
  { (createUploadVariantImages v outcome).variant with
    uploadedImageUrls := (createUploadVariantImages v outcome).variant.uploadedImageUrls
      ++ (createUploadVariantImages v outcome).urls }

/-! ### Lemmas for C5 and C6 -/

theorem jsUrlList_eq_existing_of_no_pending {imgs : List ImageItem}
    (h : pendingE1 imgs = []) : jsUrlList imgs = existingUrlsE1 imgs := by
  have hall : ∀ img ∈ imgs, img.file.isSome = false := by
    intro img him
    have := List.filter_eq_nil_iff.mp h img him
    simpa using this
  have hq : imgs.filter (fun img => !img.file.isSome) = imgs :=
    List.filter_eq_self.mpr (fun img him => by simp [hall img him])
  unfold jsUrlList existingUrlsE1
  rw [hq]

theorem jsUrlList_eq_existing_of_wf :
    ∀ {imgs : List ImageItem}, (∀ img ∈ imgs, img.file = none ∨ img.url = none) →
      jsUrlList imgs = existingUrlsE1 imgs := by
  intro imgs
  induction imgs with
  | nil => intro _; rfl
  | cons img rest ih =>
    intro hwf
    have hrest := ih (fun i hi => hwf i (List.mem_cons_of_mem _ hi))
    unfold jsUrlList existingUrlsE1 at hrest ⊢
    rcases hwf img (List.mem_cons_self _ _) with hfile | hurl
    · simp only [List.map_cons, List.filter_cons, hfile, Option.isSome_none, Bool.not_false,
        if_true]
      split_ifs with hcond
      · rw [hrest]
      · exact hrest
    · by_cases hfile : img.file.isSome = true
      · simp only [List.map_cons, List.filter_cons, hfile, Bool.not_true, hurl,
          Option.getD_none]
        rw [if_neg (by simp), if_neg (by simp)]
        exact hrest
      · have hfileF : img.file.isSome = false := by simpa using hfile
        simp only [List.map_cons, List.filter_cons, hfileF, Bool.not_false, if_true, hurl,
          Option.getD_none]
        rw [if_neg (by simp), if_neg (by simp)]
        exact hrest

theorem e1ResultsFrom_getElem? (outs : Nat → Option (List String)) :
    ∀ (vs : List E1Variant) (i k : Nat),
      ((e1ResultsFrom outs i vs)[k]?) =
        (vs[k]?).map (fun v => uploadVariantImagesV1 (i + k) v (outs (i + k))) := by
  intro vs
  induction vs with
  | nil => intro i k; simp [e1ResultsFrom]
  | cons v rest ih =>
    intro i k
    cases k with
    | zero => simp [e1ResultsFrom]
    | succ k =>
      simp only [e1ResultsFrom, List.getElem?_cons_succ]
      rw [ih (i + 1) k]
      have harith : i + 1 + k = i + (k + 1) := by omega
      rw [harith]

/-! ### Claims C5 and C6 -/

/-- Claim C5: for each image set (edit v1 per-variant and global),
`uploadPending()` with zero pending items makes no network call and returns
the existing URLs unchanged in their original order; with at least one
pending item, a successful upload issues exactly one batched request (all
pending files, in order) and returns `existingURLs ++ newURLs`. -/
theorem claim_c5 :
    (∀ (vIdx : Nat) (v : E1Variant) (outcome : Option (List String)),
      pendingE1 v.images = [] →
      uploadVariantImagesV1 vIdx v outcome
        = { urls := existingUrlsE1 v.images, err := none, calls := [], variant := v })
    ∧ (∀ (vIdx : Nat) (v : E1Variant) (newUrls : List String),
      pendingE1 v.images ≠ [] →
      uploadVariantImagesV1 vIdx v (some newUrls)
        = { urls := existingUrlsE1 v.images ++ newUrls, err := none,
            calls := [.uploadImages (pendingFilesE1 v.images)],
            variant := { v with
              images := (existingUrlsE1 v.images ++ newUrls).map urlToItem } })
    ∧ (∀ (imgs : List ImageItem) (outcome : Option (List String)),
      pendingE1 imgs = [] →
      uploadGlobalImagesV1 imgs outcome
        = { urls := existingUrlsE1 imgs, err := none, calls := [], images := imgs })
    ∧ (∀ (imgs : List ImageItem) (newUrls : List String),
      pendingE1 imgs ≠ [] →
      uploadGlobalImagesV1 imgs (some newUrls)
        = { urls := existingUrlsE1 imgs ++ newUrls, err := none,
            calls := [.uploadImages (pendingFilesE1 imgs)],
            images := (existingUrlsE1 imgs ++ newUrls).map urlToItem }) := by
  refine ⟨?_, ?_, ?_, ?_⟩
  · intro vIdx v outcome h
    unfold uploadVariantImagesV1
    rw [if_pos h, jsUrlList_eq_existing_of_no_pending h]
  · intro vIdx v newUrls h
    unfold uploadVariantImagesV1
    rw [if_neg h]
  · intro imgs outcome h
    unfold uploadGlobalImagesV1
    rw [if_pos h, jsUrlList_eq_existing_of_no_pending h]
  · intro imgs newUrls h
    unfold uploadGlobalImagesV1
    rw [if_neg h]

/-- Two persisted items and one pending item used by concrete witnesses. -/
def imgExisting1 : ImageItem := { file := none, preview := "existing1", url := some "existing1" }

def imgExisting2 : ImageItem := { file := none, preview := "existing2", url := some "existing2" }

def imgPending : ImageItem := { file := some 7, preview := "blob:7", url := none }

def vMix : E1Variant :=
  { mongoId := some "id1", name := "Mix", sku := "M1", price := 10, stock := 1,
    isDefault := true, images := [imgExisting1, imgExisting2, imgPending] }

theorem claim_c5_witness :
    uploadVariantImagesV1 0 vMix (some ["urlX"])
      = { urls := ["existing1", "existing2", "urlX"], err := none,
          calls := [.uploadImages [7]],
          variant := { vMix with images :=
            [{ file := none, preview := "existing1", url := some "existing1" },
             { file := none, preview := "existing2", url := some "existing2" },
             { file := none, preview := "urlX", url := some "urlX" }] } } := by
  have h := claim_c5.2.1 0 vMix ["urlX"] (by decide)
  rw [h]
  decide

/-- Claim C6: on upload failure (outcome `none`) each upload helper reports
an error scoped to its owner, never throws, and returns only URLs already
present.  Part 1/2: edit v1 per-variant and global helpers return the
still-present URLs (equal to the existing URLs whenever no item carries both
a pending file and a URL — which holds for every item the code constructs)
and leave their state unchanged.  Part 3: the create page helper returns
`[]` (its image items never carry URLs; previously uploaded URLs live in
`uploadedImageUrls`) and the create submit loop leaves `uploadedImageUrls`
unchanged on failure.  Part 4: the edit v1 submit loop processes every
variant with its own outcome — entry `k` of the post-upload list depends
only on variant `k` and outcome `k`, so one failed set never blocks the
remaining sets. -/
theorem claim_c6 :
    (∀ (vIdx : Nat) (v : E1Variant), pendingE1 v.images ≠ [] →
      uploadVariantImagesV1 vIdx v none
        = { urls := jsUrlList v.images, err := some (e1UploadErrMsg vIdx v.name),
            calls := [.uploadImages (pendingFilesE1 v.images)], variant := v }
      ∧ ((∀ img ∈ v.images, img.file = none ∨ img.url = none) →
          (uploadVariantImagesV1 vIdx v none).urls = existingUrlsE1 v.images))
    ∧ (∀ imgs : List ImageItem, pendingE1 imgs ≠ [] →
      uploadGlobalImagesV1 imgs none
        = { urls := jsUrlList imgs, err := some "Échec upload images globales",
            calls := [.uploadImages (pendingFilesE1 imgs)], images := imgs }
      ∧ ((∀ img ∈ imgs, img.file = none ∨ img.url = none) →
          (uploadGlobalImagesV1 imgs none).urls = existingUrlsE1 imgs))
    ∧ (∀ v : CVariant, v.images ≠ [] →
      createUploadVariantImages v none
        = { urls := [], err := some (cUploadErrMsg v.name),
            calls := [.uploadImages (v.images.map (fun img => img.file))], variant := v }
      ∧ (createSubmitStep v none).uploadedImageUrls = v.uploadedImageUrls)
    ∧ (∀ (outs : Nat → Option (List String)) (vs : List E1Variant) (k : Nat),
      (((e1UploadPhase outs vs).1)[k]?) =
        (vs[k]?).map (fun v => (uploadVariantImagesV1 k v (outs k)).variant)) := by
  refine ⟨?_, ?_, ?_, ?_⟩
  · intro vIdx v h
    have hres : uploadVariantImagesV1 vIdx v none
        = { urls := jsUrlList v.images, err := some (e1UploadErrMsg vIdx v.name),
            calls := [.uploadImages (pendingFilesE1 v.images)], variant := v } := by
      unfold uploadVariantImagesV1
      rw [if_neg h]
    refine ⟨hres, fun hwf => ?_⟩
    rw [hres]
    exact jsUrlList_eq_existing_of_wf hwf
  · intro imgs h
    have hres : uploadGlobalImagesV1 imgs none
        = { urls := jsUrlList imgs, err := some "Échec upload images globales",
            calls := [.uploadImages (pendingFilesE1 imgs)], images := imgs } := by
      unfold uploadGlobalImagesV1
      rw [if_neg h]
    refine ⟨hres, fun hwf => ?_⟩
    rw [hres]
    exact jsUrlList_eq_existing_of_wf hwf
  · intro v h
    have hres : createUploadVariantImages v none
        = { urls := [], err := some (cUploadErrMsg v.name),
            calls := [.uploadImages (v.images.map (fun img => img.file))], variant := v } := by
      unfold createUploadVariantImages
      rw [if_neg h]
    refine ⟨hres, ?_⟩
    unfold createSubmitStep
    rw [hres]
    simp
  · intro outs vs k
    show (((e1ResultsFrom outs 0 vs).map (fun r => r.variant))[k]?) = _
    rw [List.getElem?_map, e1ResultsFrom_getElem?]
    cases vs[k]? <;> simp

theorem claim_c6_witness :
    uploadVariantImagesV1 4 vMix none
      = { urls := ["existing1", "existing2"],
          err := some "Échec upload images variante Mix",
          calls := [.uploadImages [7]], variant := vMix }
    ∧ (uploadVariantImagesV1 4 vMix none).urls = existingUrlsE1 vMix.images := by
  have h := claim_c6.1 4 vMix (by decide)
  refine ⟨?_, h.2 (by decide)⟩
  rw [h.1]
  decide

/-! ## Submission (claims C2 and C4) -/

/-- Create page form state. -/
structure CState where
  name : String
  slug : String
  description : String
  brand : String
  isFeatured : Bool
  variants : List CVariant
deriving DecidableEq

/-- One entry of the create payload's `variants` array (lines 208–215). -/
structure CClean where
  name : String
  sku : String
  price : Int
  stock : Int
  images : List String
  isDefault : Bool
deriving DecidableEq

/-- The create payload (lines 217–225): note there is no `basePrice` field
and `images` is always the empty array (`// backend le garde vide`). -/
structure CPayload where
  name : String
  slug : String
  description : String
  brand : Option String
  images : List String
  variants : List CClean
  isFeatured : Bool
deriving DecidableEq

/-- Outcome of one call of the create `handleSubmit`: the validation toast
(if any), the upload error toasts, the network calls in order, and the
payload sent to `POST /products`. -/
structure CSubmitResult where
  error : Option String
  uploadErrors : List String
  calls : List NetCall
  payload : Option CPayload
deriving DecidableEq

/-- The create submit upload loop over all variants (lines 197–205),
index-threaded like the edit loop (iteration `i` reads and writes only
variant `i`). -/
def createUploadLoop (outs : Nat → Option (List String)) : Nat → List CVariant →
    List CVariant × List String × List NetCall
  | _, [] => ([], [], [])
  | i, v :: rest =>
    match createUploadLoop outs (i + 1) rest with
    | (vs, errs, calls) =>
      (createSubmitStep v (outs i) :: vs,
       ((createUploadVariantImages v (outs i)).err).toList ++ errs,
       (createUploadVariantImages v (outs i)).calls ++ calls)

/-- Lines 184–186: `if (!variants.some(v => v.isDefault)) variants[0].isDefault
= true` (a no-op here on the empty list, where the JavaScript would throw —
unreachable through the page, whose remove refuses to empty the list). -/
def setFirstDefaultIfNone (vs : List CVariant) : List CVariant :=
  if vs.any (fun v => v.isDefault) then vs else setFirstDefaultC vs

/-- ProductCreate lines 175–237, `handleSubmit`: validates name/description
and non-empty variants — there is no price validation — then uploads each
variant's images and posts the payload.  `cleanVariants` is built from the
same (mutated) variant objects the loop updated, hence from the loop's
output list. -/
def createHandleSubmit (st : CState) (outs : Nat → Option (List String)) : CSubmitResult :=
  if jsTrim st.name = "" ∨ jsTrim st.description = "" then
    { error := some "Champs obligatoires manquants", uploadErrors := [], calls := [],
      payload := none }
  else if (setFirstDefaultIfNone st.variants).length = 0 then
    { error := some "Au moins une variante est obligatoire", uploadErrors := [], calls := [],
      payload := none }
  else
    match createUploadLoop outs 0 (setFirstDefaultIfNone st.variants) with
    | (finalVs, errs, calls) =>
      { error := none,
        uploadErrors := errs,
        calls := calls ++ [.postProduct],
        payload := some
          { name := jsTrim st.name,
            slug := st.slug,
            description := jsTrim st.description,
            brand := if jsTrim st.brand = "" then none else some (jsTrim st.brand),
            images := [],
            variants := finalVs.map (fun v =>
              { name := jsTrim v.name, sku := jsTrim v.sku, price := v.price,
                stock := v.stock, images := v.uploadedImageUrls, isDefault := v.isDefault }),
            isFeatured := st.isFeatured } }

/-! ### Claim C2 -/

/-- The C2 scenario: product "Test Pad", one default variant with one
pending image file, upload collaborator answering
`["https://cdn/x.jpg"]`. -/
def c2Variant : CVariant :=
  { name := "Std", sku := "STD1", price := 5000, stock := 10, isDefault := true,
    images := [{ file := 1, preview := "blob:std" }], uploadedImageUrls := [] }

def c2State : CState :=
  { name := "Test Pad", slug := "test-pad", description := "Un pad de test", brand := "",
    isFeatured := false, variants := [c2Variant] }

def c2Outs : Nat → Option (List String) := fun _ => some ["https://cdn/x.jpg"]

/-- Claim C2, counterexample: in the C2 scenario the assembled payload's
`variants[0].images` is `["https://cdn/x.jpg", "https://cdn/x.jpg"]` — the
uploaded URL appears twice (`uploadVariantImages` pushes the new URLs onto
the shared variant object and the submit loop appends the returned URLs
again) — not `["https://cdn/x.jpg"]` with each URL exactly once. -/
theorem claim_c2_counterexample :
    ((createHandleSubmit c2State c2Outs).payload.map
        (fun p => p.variants.map (fun v => v.images)))
      = some [["https://cdn/x.jpg", "https://cdn/x.jpg"]]
    ∧ ((createHandleSubmit c2State c2Outs).payload.map
        (fun p => p.variants.map (fun v => v.images)))
      ≠ some [["https://cdn/x.jpg"]] := by
  exact ⟨by decide, by decide⟩

/-- Claim C2, amended: in the C2 scenario the submission passes validation,
issues the upload and the create call, and assembles a payload whose
`variants[0].images` is `["https://cdn/x.jpg", "https://cdn/x.jpg"]` (each
uploaded URL appended twice by the double-accumulation) and which carries
no `basePrice` field at all (the create payload omits it; `CPayload` is the
full field list of the posted object). -/
def c2ExpectedVariant : CClean :=
  { name := "Std", sku := "STD1", price := 5000, stock := 10,
    images := ["https://cdn/x.jpg", "https://cdn/x.jpg"], isDefault := true }

def c2ExpectedPayload : CPayload :=
  { name := "Test Pad", slug := "test-pad", description := "Un pad de test",
    brand := none, images := [], variants := [c2ExpectedVariant], isFeatured := false }

theorem claim_c2_amended :
    createHandleSubmit c2State c2Outs
      = { error := none, uploadErrors := [],
          calls := [.uploadImages [1], .postProduct],
          payload := some c2ExpectedPayload } := by
  decide

/-! ### Edit v1 submission (for claim C4) -/

/-- A key/value row of the editable specification list. -/
structure SpecRow where
  key : String
  value : String
deriving DecidableEq

/-- Edit v1 form state. -/
structure E1State where
  name : String
  slug : String
  description : String
  brand : String
  isFeatured : Bool
  variants : List E1Variant
  specs : List SpecRow
  globalImages : List ImageItem
  globalStock : Option Int
deriving DecidableEq

/-- `variants.find(v => v.isDefault) || variants[0]` (edit v1 line 137). -/
def e1DefaultVariant (vs : List E1Variant) : Option E1Variant :=
  match vs.find? (fun v => v.isDefault) with
  | some v => some v
  | none => vs[0]?

/-- `defaultVariant?.price ?? null` (edit v1 line 138). -/
def e1BasePrice (vs : List E1Variant) : Option Int :=
  (e1DefaultVariant vs).map (fun v => v.price)

/-- The validation prefix of edit v1 `handleSubmit` (lines 317–347): the
first failing check's toast, `none` when validation passes.  The check
`calculatedBasePrice === null || calculatedBasePrice <= 0` is modelled as
`(e1BasePrice …).getD 0 ≤ 0`, which agrees with it in both the `null` and
the numeric case. -/
def e1Validate (st : E1State) : Option String :=
  if jsTrim st.name = "" ∨ jsTrim st.description = "" then
    some "Nom et description obligatoires"
  else if 0 < st.variants.length then
    if st.variants.any (fun v => v.isDefault) = false then
      some "Sélectionnez une variante par défaut"
    else if (st.variants.all (fun v =>
        (jsTrim v.name != "") && (jsTrim v.sku != "") && decide (0 ≤ v.price))) = false then
      some "Chaque variante doit avoir nom, SKU et prix ≥ 0"
    else if (e1BasePrice st.variants).getD 0 ≤ 0 then
      some "Prix invalide – vérifiez la variante par défaut"
    else none
  else
    if st.globalStock = none ∨ (st.globalStock.getD 0) < 0 then
      some "Stock global requis et ≥ 0"
    else if st.globalImages.length = 0 then
      some "Au moins une image globale requise sans variantes"
    else none

/-- JavaScript object insertion for the specs mapping: a later duplicate key
overwrites the value but keeps its original position. -/
def objInsert (key value : String) : List (String × String) → List (String × String)
  | [] => [(key, value)]
  | (k, v) :: rest =>
    if k = key then (k, value) :: rest else (k, v) :: objInsert key value rest

/-- Edit v1 lines 361–366: fold the spec rows into the specs object, skipping
rows whose trimmed key or value is empty; last write wins. -/
def buildSpecs (specs : List SpecRow) : List (String × String) :=
  specs.foldl (fun acc s =>
    if jsTrim s.key ≠ "" ∧ jsTrim s.value ≠ "" then objInsert (jsTrim s.key) (jsTrim s.value) acc
    else acc) []

/-- One entry of the edit v1 payload's `variants` array (lines 369–377). -/
structure E1Clean where
  mongoId : Option String
  name : String
  sku : String
  price : Int
  stock : Int
  images : List String
  isDefault : Bool
deriving DecidableEq

/-- The edit v1 payload (lines 380–398); `none` models an absent /
`undefined` field. -/
structure E1Payload where
  name : String
  slug : String
  description : String
  brand : Option String
  images : List String
  isFeatured : Bool
  specs : Option (List (String × String))
  variants : Option (List E1Clean)
  basePrice : Option Int
  stock : Option Int
deriving DecidableEq

structure E1SubmitResult where
  error : Option String
  uploadErrors : List String
  calls : List NetCall
  payload : Option E1Payload
deriving DecidableEq

/-- Edit v1 lines 314–410, `handleSubmit`: validation (fail-fast, before any
network call), then the global upload, then the sequential per-variant
uploads, then one `PUT /products/:id`. -/
def editV1HandleSubmit (st : E1State) (gOut : Option (List String))
    (vOuts : Nat → Option (List String)) : E1SubmitResult :=
  match e1Validate st with
  | some msg => { error := some msg, uploadErrors := [], calls := [], payload := none }
  | none =>
    match uploadGlobalImagesV1 st.globalImages gOut, e1UploadPhase vOuts st.variants with
    | g, (finalVs, vErrs, vCalls) =>
      { error := none,
        uploadErrors := (g.err).toList ++ vErrs,
        calls := g.calls ++ vCalls ++ [.putProduct],
        payload := some
          { name := jsTrim st.name,
            slug := jsTrim st.slug,
            description := jsTrim st.description,
            brand := if jsTrim st.brand = "" then none else some (jsTrim st.brand),
            images := g.urls,
            isFeatured := st.isFeatured,
            specs := if (buildSpecs st.specs).length = 0 then none
              else some (buildSpecs st.specs),
            variants := if 0 < st.variants.length
              then some (finalVs.map (fun v =>
                { mongoId := v.mongoId, name := jsTrim v.name, sku := jsTrim v.sku,
                  price := v.price, stock := v.stock, images := jsUrlList v.images,
                  isDefault := v.isDefault }))
              else none,
            basePrice := if 0 < st.variants.length then e1BasePrice st.variants else some 0,
            stock := if 0 < st.variants.length then none
              else some (st.globalStock.getD 0) } }

/-! ### Claim C4 -/

/-- The C4 create-mode scenario: one variant with non-blank name and sku and
price 0, non-blank product name and description, no images. -/
def c4Variant : CVariant :=
  { name := "A", sku := "A1", price := 0, stock := 0, isDefault := true, images := [],
    uploadedImageUrls := [] }

def c4State : CState :=
  { name := "Produit", slug := "produit", description := "Desc", brand := "",
    isFeatured := false, variants := [c4Variant] }

def c4Outs : Nat → Option (List String) := fun _ => none

/-- Claim C4, counterexample: the create page `handleSubmit` has no price
check at all — in the C4 scenario validation passes (`error = none`) and the
product-create network call is issued, contradicting "validation fails …
and no network call is issued". -/
theorem claim_c4_counterexample :
    (createHandleSubmit c4State c4Outs).error = none
    ∧ (createHandleSubmit c4State c4Outs).calls = [.postProduct] := by
  exact ⟨by decide, by decide⟩

/-- Claim C4, amended: the price-must-be-positive rejection lives in the
edit-mode engine, not the create one.  (1) every edit v1 submission in the
variant-priced branch with non-blank name/description, a default marked,
every variant with non-blank name/sku and price ≥ 0, and derived base price
≤ 0, fails validation with a user-visible error and issues no network call;
(2) the create page runs no price check: the C4 submission passes validation
and issues the create call. -/
theorem claim_c4_amended :
    (∀ (st : E1State) (gOut : Option (List String)) (vOuts : Nat → Option (List String)),
      jsTrim st.name ≠ "" → jsTrim st.description ≠ "" →
      0 < st.variants.length →
      st.variants.any (fun v => v.isDefault) = true →
      (st.variants.all (fun v =>
        (jsTrim v.name != "") && (jsTrim v.sku != "") && decide (0 ≤ v.price))) = true →
      (e1BasePrice st.variants).getD 0 ≤ 0 →
      editV1HandleSubmit st gOut vOuts
        = { error := some "Prix invalide – vérifiez la variante par défaut",
            uploadErrors := [], calls := [], payload := none })
    ∧ ((createHandleSubmit c4State c4Outs).error = none
      ∧ (createHandleSubmit c4State c4Outs).calls = [.postProduct]) := by
  constructor
  · intro st gOut vOuts h1 h2 h3 h4 h5 h6
    have hv : e1Validate st = some "Prix invalide – vérifiez la variante par défaut" := by
      unfold e1Validate
      rw [if_neg (fun hc => hc.elim h1 h2), if_pos h3, if_neg (by rw [h4]; simp),
        if_neg (by rw [h5]; simp), if_pos h6]
    unfold editV1HandleSubmit
    rw [hv]
  · exact ⟨by decide, by decide⟩

/-- The C4 scenario transported to edit v1: same variant, price 0. -/
def c4EditVariant : E1Variant :=
  { mongoId := none, name := "A", sku := "A1", price := 0, stock := 0, isDefault := true,
    images := [] }

def c4EditState : E1State :=
  { name := "Produit", slug := "produit", description := "Desc", brand := "",
    isFeatured := false, variants := [c4EditVariant], specs := [], globalImages := [],
    globalStock := none }

theorem claim_c4_witness :
    editV1HandleSubmit c4EditState none (fun _ => none)
      = { error := some "Prix invalide – vérifiez la variante par défaut",
          uploadErrors := [], calls := [], payload := none } :=
  claim_c4_amended.1 c4EditState none (fun _ => none) (by decide) (by decide) (by decide)
    (by decide) (by decide) (by decide)

/-! ## Fetch decoding (claims C8 and C10)

A fetched variant record, every field possibly absent (`undefined`). -/

structure FetchedVariant where
  mongoId : Option String
  name : Option String
  sku : Option String
  price : Option Int
  priceDifference : Option Int
  stock : Option Int
  isDefault : Option Bool
  images : Option (List String)
deriving DecidableEq

/-- Edit v1 fetch decode of one variant (lines 97–108):
`price: v.price ?? (v.priceDifference ?? 0)` is the legacy price migration;
`v.name || ''`, `v.stock || 0` and `!!v.isDefault` coincide with `getD`
defaults (`''` and `0` are the only falsy values of their types here). -/
def decodeFetchedV1 (f : FetchedVariant) : E1Variant :=
  { mongoId := f.mongoId,
    name := f.name.getD "",
    sku := f.sku.getD "",
    price := f.price.getD (f.priceDifference.getD 0),
    stock := f.stock.getD 0,
    isDefault := f.isDefault.getD false,
    images := (f.images.getD []).map urlToItem }

/-- `updated[0].isDefault = true` on the loaded edit v1 variant list. -/
def setFirstDefaultE1 : List E1Variant → List E1Variant
  | [] => []
  | v :: rest => { v with isDefault := true } :: rest

/-- Edit v1 lines 97–115: decode all fetched variants, then repair the
default flag — `if (loadedVariants.length > 0 && !loadedVariants.some(v =>
v.isDefault)) loadedVariants[0].isDefault = true`. -/
def loadVariantsV1 (fetched : List FetchedVariant) : List E1Variant :=
  if 0 < (fetched.map decodeFetchedV1).length ∧
      ((fetched.map decodeFetchedV1).any (fun v => v.isDefault)) = false then
    setFirstDefaultE1 (fetched.map decodeFetchedV1)
  else fetched.map decodeFetchedV1

/-- Edit v2 fetch decode of one variant (lines 820–832): `price: v.price ||
0` — the `priceDifference` fallback is absent. -/
def decodeFetchedV2 (f : FetchedVariant) : E2Variant :=
  { mongoId := f.mongoId,
    name := f.name.getD "",
    sku := f.sku.getD "",
    price := f.price.getD 0,
    stock := f.stock.getD 0,
    isDefault := f.isDefault.getD false,
    images := (f.images.getD []).map
      (fun url => { file := none, preview := url, isNew := some false }),
    uploadedImageUrls := f.images.getD [] }

/-- Edit v2 lines 820–845: decode all fetched variants; if none were
fetched, push one empty default variant (no default repair otherwise). -/
def loadVariantsV2 (fetched : List FetchedVariant) : List E2Variant :=
  if (fetched.map decodeFetchedV2).length = 0 then
    [{ mongoId := none, name := "", sku := "", price := 0, stock := 0, isDefault := true,
       images := [], uploadedImageUrls := [] }]
  else fetched.map decodeFetchedV2

/-! ### Claim C8 -/

theorem setFirstDefaultE1_price :
    ∀ (l : List E1Variant) (k : Nat),
      (((setFirstDefaultE1 l)[k]?).map (fun v => v.price))
        = ((l[k]?).map (fun v => v.price)) := by
  intro l k
  cases l with
  | nil => rfl
  | cons v rest =>
    cases k with
    | zero => simp [setFirstDefaultE1]
    | succ k => simp [setFirstDefaultE1]

/-- A fetched record with no `price` field and a legacy `priceDifference`. -/
def legacyFetched : FetchedVariant :=
  { mongoId := some "m1", name := some "Legacy", sku := some "L1", price := none,
    priceDifference := some 700, stock := some 3, isDefault := some true,
    images := some ["https://cdn/a.jpg"] }

/-- Claim C8, counterexample: the second edit-page decoder takes
`v.price || 0` and ignores `priceDifference` entirely, so the record
`legacyFetched` (no `price`, `priceDifference = 700`) decodes to price `0`,
not `price ?? priceDifference ?? 0 = 700`. -/
theorem claim_c8_counterexample :
    (decodeFetchedV2 legacyFetched).price = 0
    ∧ legacyFetched.price.getD (legacyFetched.priceDifference.getD 0) = 700
    ∧ (decodeFetchedV2 legacyFetched).price
      ≠ legacyFetched.price.getD (legacyFetched.priceDifference.getD 0) := by
  exact ⟨by decide, by decide, by decide⟩

/-- Claim C8, amended: the first edit-page decoder satisfies the claim —
after the full load (decode of every fetched variant plus the default
repair), every loaded variant's price is `price ?? priceDifference ?? 0` of
its record; the second edit-page decoder instead takes `price || 0`,
ignoring `priceDifference`. -/
theorem claim_c8_amended :
    ∀ (fetched : List FetchedVariant) (k : Nat),
      (((loadVariantsV1 fetched)[k]?).map (fun v => v.price))
        = (fetched[k]?).map (fun f => f.price.getD (f.priceDifference.getD 0)) := by
  intro fetched k
  unfold loadVariantsV1
  by_cases hc : 0 < (fetched.map decodeFetchedV1).length ∧
      ((fetched.map decodeFetchedV1).any (fun v => v.isDefault)) = false
  · rw [if_pos hc, setFirstDefaultE1_price, List.getElem?_map]
    cases fetched[k]? <;> simp [decodeFetchedV1]
  · rw [if_neg hc, List.getElem?_map]
    cases fetched[k]? <;> simp [decodeFetchedV1]

/-! ### Claim C10 -/

/-- Claim C10: when the fetched variant list is non-empty and no fetched
variant carries `isDefault = true` (`!!v.isDefault` is false for each), the
edit v1 loader marks exactly the first loaded variant default, so the
single-default invariant holds immediately after load. -/
theorem claim_c10 (fetched : List FetchedVariant) (hne : fetched ≠ [])
    (hnd : ∀ f ∈ fetched, f.isDefault.getD false = false) :
    uniqueDefaultAt (fun v => v.isDefault) (loadVariantsV1 fetched) 0 := by
  have hmapnd : ∀ v ∈ fetched.map decodeFetchedV1, v.isDefault = false := by
    intro v hv
    rcases List.mem_map.mp hv with ⟨f, hf, rfl⟩
    simpa [decodeFetchedV1] using hnd f hf
  have hany : ((fetched.map decodeFetchedV1).any (fun v => v.isDefault)) = false := by
    rcases Bool.eq_false_or_eq_true ((fetched.map decodeFetchedV1).any (fun v => v.isDefault))
      with ht | hf
    · exfalso
      rcases List.any_eq_true.mp ht with ⟨v, hv, hpv⟩
      rw [hmapnd v hv] at hpv
      exact absurd hpv (by simp)
    · exact hf
  have hlen : 0 < (fetched.map decodeFetchedV1).length := by
    cases fetched with
    | nil => exact absurd rfl hne
    | cons f rest => simp
  unfold loadVariantsV1
  rw [if_pos ⟨hlen, hany⟩]
  obtain ⟨w, rest, hwr⟩ : ∃ w rest, fetched.map decodeFetchedV1 = w :: rest := by
    cases hm : fetched.map decodeFetchedV1 with
    | nil => rw [hm] at hlen; simp at hlen
    | cons w rest => exact ⟨w, rest, rfl⟩
  rw [hwr]
  have hrest : ∀ j : Nat, ((rest[j]?).map (fun v => v.isDefault)) ≠ some true := by
    intro j
    cases hj : rest[j]? with
    | none => simp
    | some v =>
      have hvmem : v ∈ fetched.map decodeFetchedV1 := by
        rw [hwr]
        exact List.mem_cons_of_mem _ (List.getElem?_mem hj)
      simp [hmapnd v hvmem]
  constructor
  · have h1 : (((setFirstDefaultE1 (w :: rest))[0]?).map (fun v => v.isDefault))
        = some true := by
      simp [setFirstDefaultE1]
    refine countTrue_eq_one h1 ?_
    intro j hj
    match j, hj with
    | (j + 1), _ =>
      show (((setFirstDefaultE1 (w :: rest))[j + 1]?).map (fun v => v.isDefault)) ≠ some true
      simp only [setFirstDefaultE1, List.getElem?_cons_succ]
      exact hrest j
  · simp [setFirstDefaultE1]

/-- A fetched record carrying no `isDefault` flag at all. -/
def fetchedNoDef : FetchedVariant :=
  { mongoId := none, name := some "X", sku := some "X1", price := some 100,
    priceDifference := none, stock := some 1, isDefault := none, images := none }

theorem claim_c10_witness :
    uniqueDefaultAt (fun v => v.isDefault) (loadVariantsV1 [fetchedNoDef]) 0 :=
  claim_c10 [fetchedNoDef] (by decide) (by decide)

end CapAdmin
